import Mathlib

/-!
Verification of the layout-optimization pipeline of the `sdokb` repository.

The Python sources are shallowly embedded: dictionaries keyed by actor id
become total functions out of `ℕ` (absent keys never being read by the
modelled code paths), Python floats become exact real numbers `ℝ`, Python
sets become `Finset`s, and Python lists become `List`s.  Each definition
mirrors one function of the source scripts; the doc comment of a definition
names the script and function it embeds.
-/

namespace Sdokb

/-! ## optimization_utils.py -/

namespace Utils

/-- `GOLDEN_RATIO = (1 + 5 ** 0.5) / 2` from `optimization_utils.py`. -/
noncomputable def GOLDEN_RATIO : ℝ := (1 + Real.sqrt 5) / 2

/-- `GOLDEN_ANGLE = 360 * (1 - 1 / GOLDEN_RATIO)` from `optimization_utils.py`. -/
noncomputable def GOLDEN_ANGLE : ℝ := 360 * (1 - 1 / GOLDEN_RATIO)

/-- `DEFAULT_SPACING = 80` from `optimization_utils.py`. -/
def DEFAULT_SPACING : ℝ := 80

/-- The `Metrics` dataclass of `optimization_utils.py`. -/
structure Metrics where
  edge_count : ℕ
  total_distance : ℝ
  avg_distance : ℝ
  min_distance : ℝ
  max_distance : ℝ

/-- `euclidean_distance` from `optimization_utils.py`:
`sqrt((x2 - x1) ** 2 + (y2 - y1) ** 2)`. -/
noncomputable def euclidean_distance (x1 y1 x2 y2 : ℝ) : ℝ :=
  Real.sqrt ((x2 - x1) ^ 2 + (y2 - y1) ^ 2)

/-- `calculate_vogel_position` from `optimization_utils.py`.
`radius = spacing * sqrt(index + 1)`, `theta = radians(index * GOLDEN_ANGLE)`,
returning `(radius * cos theta, radius * sin theta)`.  `math.radians θ`
is `θ * π / 180`. -/
noncomputable def calculate_vogel_position (index : ℕ) (spacing : ℝ) : ℝ × ℝ :=
  let radius := spacing * Real.sqrt (index + 1)
  let theta_degrees := (index : ℝ) * GOLDEN_ANGLE
  let theta_radians := theta_degrees * (Real.pi / 180)
  (radius * Real.cos theta_radians, radius * Real.sin theta_radians)

/-- The canonical form `tuple(sorted([source_id, target_id]))` used when the
scripts store an edge. -/
def sortedPair (s t : ℕ) : ℕ × ℕ := if s ≤ t then (s, t) else (t, s)

/-- `deduplicate_edges` from `optimization_utils.py`.  A connection is a
`(Source, Target)` pair; pairs with an endpoint outside `actor_id_set` are
dropped, and surviving pairs are stored sorted inside a set (modelled by the
resulting `Finset`; the source's final `list(edge_set)` conversion only
forgets the unspecified iteration order). -/
def deduplicate_edges (connections : List (ℕ × ℕ)) (actor_id_set : Finset ℕ) :
    Finset (ℕ × ℕ) :=
  connections.foldl
    (fun edge_set conn =>
      if conn.1 ∈ actor_id_set ∧ conn.2 ∈ actor_id_set then
        insert (sortedPair conn.1 conn.2) edge_set
      else edge_set)
    ∅

/-- The per-edge distance used by `calculate_metrics`. -/
noncomputable def edgeDistance (positions : ℕ → ℝ × ℝ) (e : ℕ × ℕ) : ℝ :=
  euclidean_distance (positions e.1).1 (positions e.1).2
    (positions e.2).1 (positions e.2).2

/-- `calculate_metrics` from `optimization_utils.py`.  With no edges it
returns the all-zero record; otherwise it collects the per-edge Euclidean
distances and reports their count, sum, mean, minimum and maximum (Python's
`min`/`max` over a nonempty list are left folds of the binary operations
starting from the first element). -/
noncomputable def calculate_metrics (positions : ℕ → ℝ × ℝ)
    (edges : List (ℕ × ℕ)) : Metrics :=
  match edges with
  | [] => ⟨0, 0, 0, 0, 0⟩
  | e :: es =>
    let d0 := edgeDistance positions e
    let ds := es.map (edgeDistance positions)
    let total := d0 + ds.sum
    { edge_count := (e :: es).length
      total_distance := total
      avg_distance := total / ((e :: es).length : ℝ)
      min_distance := ds.foldl min d0
      max_distance := ds.foldl max d0 }

end Utils

/-! ## optimize-layout.py (the large-scale optimizer) -/

namespace OptLayout

/-- `GOLDEN_ANGLE = 137.5` from `optimize-layout.py` (hardcoded degrees). -/
def GOLDEN_ANGLE : ℝ := 137.5

/-- `SPACING = 80` from `optimize-layout.py`. -/
def SPACING : ℝ := 80

/-- `calculate_vogel_position` from `optimize-layout.py`; identical formula
to the shared utility but using the hardcoded `137.5` golden angle. -/
noncomputable def calculate_vogel_position (index : ℕ) (spacing : ℝ) : ℝ × ℝ :=
  let radius := spacing * Real.sqrt (index + 1)
  let theta_degrees := (index : ℝ) * GOLDEN_ANGLE
  let theta_radians := theta_degrees * (Real.pi / 180)
  (radius * Real.cos theta_radians, radius * Real.sin theta_radians)

/-- `calculate_adaptive_iterations` from `optimize-layout.py`:
`base = num_edges * 6`, clamped as `max(5000, min(50000, base))`; the second
component is the quality label it reports. -/
def calculate_adaptive_iterations (num_edges : ℕ) (_num_actors : ℕ) :
    ℕ × String :=
  let base_iterations := num_edges * 6
  let min_iterations := 5000
  let max_iterations := 50000
  let iterations := max min_iterations (min max_iterations base_iterations)
  let quality :=
    if iterations ≥ 20000 then "high (99%+ optimal)"
    else if iterations ≥ 10000 then "good (90-95% optimal)"
    else "fast (85-90% optimal)"
  (iterations, quality)

/-- The `no_improve_limit` auto-calculation inside `two_opt_local_search`:
`max(500, int(max_iterations * 0.05))`.  The float product with `0.05`
followed by `int(...)` truncation is modelled as exact rational arithmetic
with a floor, i.e. natural division `max_iterations * 5 / 100`. -/
def auto_no_improve_limit (max_iterations : ℕ) : ℕ :=
  max 500 (max_iterations * 5 / 100)

end OptLayout

/-! ## 02-centrality-ordering.py -/

namespace Centrality

/-- `calculate_degrees` from `02-centrality-ordering.py`: every actor starts
at degree `0` (modelled by the total function's default), and each edge
increments both endpoints — `degree[source] += 1; degree[target] += 1`. -/
def calculate_degrees (edges : List (ℕ × ℕ)) : ℕ → ℕ :=
  edges.foldl
    (fun degree e =>
      let d1 := Function.update degree e.1 (degree e.1 + 1)
      Function.update d1 e.2 (d1 e.2 + 1))
    (fun _ => 0)

/-- The sort of `main` in `02-centrality-ordering.py`:
`sorted(actors, key=lambda a: degrees[a['person_id']], reverse=True)`.
Python's `sorted` is a stable sort; it is modelled by `List.mergeSort`
(stable by `List.sublist_mergeSort`) with the descending comparison. -/
def actors_by_degree (actors : List ℕ) (degrees : ℕ → ℕ) : List ℕ :=
  actors.mergeSort (fun a b => decide (degrees b ≤ degrees a))

/-- The ordinal assignment of `main` in `02-centrality-ordering.py`:
`for ordinal, actor in enumerate(actors_by_degree): actor_ordinals[id] = ordinal`.
For a duplicate-free actor list this stores, for each actor, its index in
the degree-sorted list. -/
def actor_ordinals (actors : List ℕ) (degrees : ℕ → ℕ) : ℕ → ℕ :=
  fun actor_id => (actors_by_degree actors degrees).indexOf actor_id

end Centrality

/-! ## 03-swap-optimization.py -/

namespace SwapOpt

/-- `STAGNATION_THRESHOLD = 1000` from `03-swap-optimization.py`. -/
def STAGNATION_THRESHOLD : ℕ := 1000

/-- `MAX_ITERATIONS = 50000` from `03-swap-optimization.py`. -/
def MAX_ITERATIONS : ℕ := 50000

/-- The neighbors of `v` contributed by the edge list, in list form:
edge `(v, u)` or `(u, v)` contributes `u`. -/
def nbrList (edges : List (ℕ × ℕ)) (v : ℕ) : List ℕ :=
  edges.filterMap fun e =>
    if e.1 = v then some e.2 else if e.2 = v then some e.1 else none

/-- `build_adjacency` from `03-swap-optimization.py`, viewed per node:
`adj[source].add(target); adj[target].add(source)` over all edges yields,
for each node, the set of its neighbors (a missing key reads as `∅`,
matching the `adjacency.get(actor_i, set())` / `not in` guards at every
use site). -/
def build_adjacency (edges : List (ℕ × ℕ)) : ℕ → Finset ℕ :=
  fun v => (nbrList edges v).toFinset

/-- `calculate_actor_contribution` from `03-swap-optimization.py`: the sum of
distances from `actor_id` to all of its neighbors in the adjacency map
(`0.0` when the actor has no adjacency entry). -/
noncomputable def calculate_actor_contribution (actor_id : ℕ)
    (positions : ℕ → ℝ × ℝ) (adjacency : ℕ → Finset ℕ) : ℝ :=
  ∑ neighbor_id ∈ adjacency actor_id,
    Utils.euclidean_distance (positions actor_id).1 (positions actor_id).2
      (positions neighbor_id).1 (positions neighbor_id).2

/-- The Python parallel assignment
`positions[i], positions[j] = positions[j], positions[i]`,
as a transformation of the position map. -/
def swapped {α : Type} (positions : ℕ → α) (i j : ℕ) : ℕ → α :=
  fun v => if v = i then positions j else if v = j then positions i else positions v

/-- `try_swap` from `03-swap-optimization.py`.  Old and new contributions of
the two candidate actors are compared, subtracting the `i`–`j` distance once
on each side when the two are directly connected (the source's
`shared_edge_adjustment`, which is `0.0` when they are not connected); the
tentative exchange is reverted before returning, so only the returned delta
matters. -/
noncomputable def try_swap (actor_i actor_j : ℕ) (positions : ℕ → ℝ × ℝ)
    (adjacency : ℕ → Finset ℕ) : ℝ :=
  let old_contrib_i := calculate_actor_contribution actor_i positions adjacency
  let old_contrib_j := calculate_actor_contribution actor_j positions adjacency
  let old_shared :=
    if actor_j ∈ adjacency actor_i then
      Utils.euclidean_distance (positions actor_i).1 (positions actor_i).2
        (positions actor_j).1 (positions actor_j).2
    else 0
  let old_total := old_contrib_i + old_contrib_j - old_shared
  let positions2 := swapped positions actor_i actor_j
  let new_contrib_i := calculate_actor_contribution actor_i positions2 adjacency
  let new_contrib_j := calculate_actor_contribution actor_j positions2 adjacency
  let new_shared :=
    if actor_j ∈ adjacency actor_i then
      Utils.euclidean_distance (positions2 actor_i).1 (positions2 actor_i).2
        (positions2 actor_j).1 (positions2 actor_j).2
    else 0
  let new_total := new_contrib_i + new_contrib_j - new_shared
  new_total - old_total

/-- The from-scratch total used by `run_swap_optimization`:
`sum(euclidean_distance(*positions[e[0]], *positions[e[1]]) for e in edges)`. -/
noncomputable def total_distance (positions : ℕ → ℝ × ℝ)
    (edges : List (ℕ × ℕ)) : ℝ :=
  (edges.map (Utils.edgeDistance positions)).sum

/-- The mutable state of the `run_swap_optimization` loop. -/
structure LoopState where
  positions : ℕ → ℝ × ℝ
  ordinals : ℕ → ℕ
  total_distance : ℝ
  stagnation_counter : ℕ
  iteration : ℕ
  swaps_accepted : ℕ

/-- One iteration of the `run_swap_optimization` while-loop, for the sampled
actor pair: compute the delta with `try_swap`; if `delta < -0.001` accept
the swap (swap positions and ordinals, add the delta to the running total,
reset stagnation), else bump the stagnation counter. -/
noncomputable def swapStep (edges : List (ℕ × ℕ)) (s : LoopState)
    (pair : ℕ × ℕ) : LoopState :=
  let delta := try_swap pair.1 pair.2 s.positions (build_adjacency edges)
  if delta < -0.001 then
    { positions := swapped s.positions pair.1 pair.2
      ordinals := swapped s.ordinals pair.1 pair.2
      total_distance := s.total_distance + delta
      stagnation_counter := 0
      iteration := s.iteration + 1
      swaps_accepted := s.swaps_accepted + 1 }
  else
    { s with
      stagnation_counter := s.stagnation_counter + 1
      iteration := s.iteration + 1 }

/-- The initial loop state of `run_swap_optimization`: copies of the input
positions and ordinals, the from-scratch initial total distance, and all
counters at zero. -/
noncomputable def initialState (edges : List (ℕ × ℕ))
    (initial_positions : ℕ → ℝ × ℝ) (initial_ordinals : ℕ → ℕ) : LoopState :=
  { positions := initial_positions
    ordinals := initial_ordinals
    total_distance := total_distance initial_positions edges
    stagnation_counter := 0
    iteration := 0
    swaps_accepted := 0 }

/-- `stopped_reason` as recorded by `run_swap_optimization`:
`'stagnation' if stagnation_counter >= STAGNATION_THRESHOLD else 'max_iterations'`. -/
def stopped_reason (s : LoopState) : String :=
  if STAGNATION_THRESHOLD ≤ s.stagnation_counter then "stagnation"
  else "max_iterations"

/-- The `run_swap_optimization` while-loop:
`while stagnation_counter < STAGNATION_THRESHOLD and iteration < MAX_ITERATIONS`,
consuming one pair of the (injected) random pair stream per iteration. -/
noncomputable def run_loop (edges : List (ℕ × ℕ)) (stream : ℕ → ℕ × ℕ)
    (s : LoopState) : LoopState :=
  if s.stagnation_counter < STAGNATION_THRESHOLD ∧
      s.iteration < MAX_ITERATIONS then
    run_loop edges stream (swapStep edges s (stream s.iteration))
  else s
termination_by MAX_ITERATIONS - s.iteration
decreasing_by
  have hstep : (swapStep edges s (stream s.iteration)).iteration = s.iteration + 1 := by
    unfold swapStep
    dsimp only
    split <;> rfl
  omega

/-- The per-edge distance between the current positions of two actors,
`euclidean_distance(*positions[a], *positions[b])`; proof-side shorthand. -/
noncomputable def pairDist (positions : ℕ → ℝ × ℝ) (a b : ℕ) : ℝ :=
  Utils.euclidean_distance (positions a).1 (positions a).2
    (positions b).1 (positions b).2

/-- The contribution of a single edge to `calculate_actor_contribution v`:
the distance from `v` to the edge's other endpoint when `v` is an endpoint,
`0` otherwise; proof-side shorthand. -/
noncomputable def contribOf (positions : ℕ → ℝ × ℝ) (v : ℕ) (e : ℕ × ℕ) : ℝ :=
  if e.1 = v then pairDist positions v e.2
  else if e.2 = v then pairDist positions v e.1
  else 0

/-- An edge is touched by the swap of `i` and `j` when one of its endpoints
is `i` or `j`; proof-side shorthand. -/
def touches (i j : ℕ) (e : ℕ × ℕ) : Prop :=
  e.1 = i ∨ e.2 = i ∨ e.1 = j ∨ e.2 = j

instance (i j : ℕ) (e : ℕ × ℕ) : Decidable (touches i j e) := by
  unfold touches
  infer_instance

/-- A sequence of accepted swaps applied to a slot assignment: each accepted
iteration of `run_swap_optimization` performs
`ordinals[i], ordinals[j] = ordinals[j], ordinals[i]`. -/
def applySwaps (swaps : List (ℕ × ℕ)) (slots : ℕ → ℕ) : ℕ → ℕ :=
  swaps.foldl (fun f p => swapped f p.1 p.2) slots

end SwapOpt

/-! ## 04-force-relaxation.py -/

namespace ForceRelax

/-- `STEP_SIZE = 0.02` from `04-force-relaxation.py`. -/
def STEP_SIZE : ℝ := 0.02

/-- `MAX_STEP = 5.0` from `04-force-relaxation.py`. -/
def MAX_STEP : ℝ := 5.0

/-- `ATTRACTION_STRENGTH = 0.01` from `04-force-relaxation.py`. -/
def ATTRACTION_STRENGTH : ℝ := 0.01

/-- `REPULSION_STRENGTH = 0.5` from `04-force-relaxation.py`. -/
def REPULSION_STRENGTH : ℝ := 0.5

/-- `ANCHOR_STRENGTH = 0.02` from `04-force-relaxation.py`. -/
def ANCHOR_STRENGTH : ℝ := 0.02

/-- `MIN_DISTANCE = 60.0` from `04-force-relaxation.py`. -/
def MIN_DISTANCE : ℝ := 60.0

/-- `math.hypot dx dy`, the magnitude of a 2D vector. -/
noncomputable def hypot (v : ℝ × ℝ) : ℝ := Real.sqrt (v.1 ^ 2 + v.2 ^ 2)

/-- The attraction pass of `run_force_relaxation`: each edge pulls its two
endpoints together with magnitude `ATTRACTION_STRENGTH * dist` along the
connecting direction; coincident endpoints are skipped. -/
noncomputable def addAttraction (positions : ℕ → ℝ × ℝ)
    (forces : ℕ → ℝ × ℝ) (e : ℕ × ℕ) : ℕ → ℝ × ℝ :=
  let dx := (positions e.2).1 - (positions e.1).1
  let dy := (positions e.2).2 - (positions e.1).2
  let dist := hypot (dx, dy)
  if dist = 0 then forces
  else
    let fx := dx / dist * (ATTRACTION_STRENGTH * dist)
    let fy := dy / dist * (ATTRACTION_STRENGTH * dist)
    fun v =>
      if v = e.1 then ((forces v).1 + fx, (forces v).2 + fy)
      else if v = e.2 then ((forces v).1 - fx, (forces v).2 - fy)
      else forces v

/-- The repulsion pass of `run_force_relaxation`, for one unordered actor
pair: when the two are closer than `MIN_DISTANCE` they are pushed apart by
`REPULSION_STRENGTH * overlap` (with the fallback direction `(1, 0)` and a
tiny distance for coincident points). -/
noncomputable def addRepulsion (positions : ℕ → ℝ × ℝ)
    (forces : ℕ → ℝ × ℝ) (p : ℕ × ℕ) : ℕ → ℝ × ℝ :=
  let dx := (positions p.2).1 - (positions p.1).1
  let dy := (positions p.2).2 - (positions p.1).2
  let dist0 := hypot (dx, dy)
  let dir := if dist0 = 0 then ((1 : ℝ), (0 : ℝ)) else (dx / dist0, dy / dist0)
  let dist := if dist0 = 0 then 1e-6 else dist0
  if dist < MIN_DISTANCE then
    let overlap := MIN_DISTANCE - dist
    let fx := dir.1 * (REPULSION_STRENGTH * overlap)
    let fy := dir.2 * (REPULSION_STRENGTH * overlap)
    fun v =>
      if v = p.1 then ((forces v).1 - fx, (forces v).2 - fy)
      else if v = p.2 then ((forces v).1 + fx, (forces v).2 + fy)
      else forces v
  else forces

/-- The ordered pairs visited by the nested repulsion loops
(`for i, actor_i in enumerate(actor_ids): for actor_j in actor_ids[i+1:]`). -/
def upperPairs : List ℕ → List (ℕ × ℕ)
  | [] => []
  | x :: xs => xs.map (fun y => (x, y)) ++ upperPairs xs

/-- The net force on every node in one iteration of `run_force_relaxation`:
attraction over all edges, repulsion over all ordered actor pairs, then the
anchor pull `ANCHOR_STRENGTH * (original - current)` on each node. -/
noncomputable def netForces (edges : List (ℕ × ℕ)) (actor_ids : List ℕ)
    (positions original_positions : ℕ → ℝ × ℝ) : ℕ → ℝ × ℝ :=
  let afterAttraction := edges.foldl (addAttraction positions) (fun _ => (0, 0))
  let afterRepulsion :=
    (upperPairs actor_ids).foldl (addRepulsion positions) afterAttraction
  fun v =>
    ((afterRepulsion v).1 +
        ANCHOR_STRENGTH * ((original_positions v).1 - (positions v).1),
      (afterRepulsion v).2 +
        ANCHOR_STRENGTH * ((original_positions v).2 - (positions v).2))

/-- The capped displacement applied to one node in `run_force_relaxation`:
`step = STEP_SIZE * force`, rescaled to magnitude `MAX_STEP` (preserving
direction) when it exceeds the cap. -/
noncomputable def cappedStep (force : ℝ × ℝ) : ℝ × ℝ :=
  let step_x := STEP_SIZE * force.1
  let step_y := STEP_SIZE * force.2
  let step_mag := hypot (step_x, step_y)
  if step_mag > MAX_STEP then
    let scale := MAX_STEP / step_mag
    (step_x * scale, step_y * scale)
  else (step_x, step_y)

/-- One full position update of `run_force_relaxation`: every node moves by
the capped step computed from its net force. -/
noncomputable def iteratePositions (edges : List (ℕ × ℕ))
    (actor_ids : List ℕ) (positions original_positions : ℕ → ℝ × ℝ) :
    ℕ → ℝ × ℝ :=
  fun v =>
    let step := cappedStep (netForces edges actor_ids positions original_positions v)
    ((positions v).1 + step.1, (positions v).2 + step.2)

end ForceRelax

/-! ## General list lemmas used by the verification -/

theorem list_sum_map_add {α : Type} (l : List α) (f g : α → ℝ) :
    (l.map fun x => f x + g x).sum = (l.map f).sum + (l.map g).sum := by
  induction l with
  | nil => simp
  | cons a l ih => simp [ih]; ring

theorem list_sum_map_sub {α : Type} (l : List α) (f g : α → ℝ) :
    (l.map fun x => f x - g x).sum = (l.map f).sum - (l.map g).sum := by
  induction l with
  | nil => simp
  | cons a l ih => simp [ih]; ring

theorem foldl_min_mem {α : Type} [LinearOrder α] (l : List α) (a : α) :
    l.foldl min a ∈ a :: l := by
  induction l generalizing a with
  | nil => simp
  | cons b l ih =>
    simp only [List.foldl_cons]
    rcases min_choice a b with h | h <;> rw [h]
    · have := ih a
      simp only [List.mem_cons] at this ⊢
      tauto
    · have := ih b
      simp only [List.mem_cons] at this ⊢
      tauto

theorem foldl_min_le {α : Type} [LinearOrder α] (l : List α) (a : α) :
    l.foldl min a ≤ a ∧ ∀ x ∈ l, l.foldl min a ≤ x := by
  induction l generalizing a with
  | nil => simp
  | cons b l ih =>
    obtain ⟨h1, h2⟩ := ih (min a b)
    refine ⟨le_trans h1 (min_le_left _ _), ?_⟩
    intro x hx
    rcases List.mem_cons.mp hx with rfl | hx
    · exact le_trans h1 (min_le_right _ _)
    · exact h2 x hx

theorem foldl_max_mem {α : Type} [LinearOrder α] (l : List α) (a : α) :
    l.foldl max a ∈ a :: l := by
  induction l generalizing a with
  | nil => simp
  | cons b l ih =>
    simp only [List.foldl_cons]
    rcases max_choice a b with h | h <;> rw [h]
    · have := ih a
      simp only [List.mem_cons] at this ⊢
      tauto
    · have := ih b
      simp only [List.mem_cons] at this ⊢
      tauto

theorem foldl_max_ge {α : Type} [LinearOrder α] (l : List α) (a : α) :
    a ≤ l.foldl max a ∧ ∀ x ∈ l, x ≤ l.foldl max a := by
  induction l generalizing a with
  | nil => simp
  | cons b l ih =>
    obtain ⟨h1, h2⟩ := ih (max a b)
    refine ⟨le_trans (le_max_left _ _) h1, ?_⟩
    intro x hx
    rcases List.mem_cons.mp hx with rfl | hx
    · exact le_trans (le_max_right _ _) h1
    · exact h2 x hx

/-! ## C3: edge building -/

theorem mem_deduplicate_edges_aux (connections : List (ℕ × ℕ))
    (S : Finset ℕ) (acc : Finset (ℕ × ℕ)) (e : ℕ × ℕ) :
    e ∈ connections.foldl
        (fun edge_set conn =>
          if conn.1 ∈ S ∧ conn.2 ∈ S then
            insert (Utils.sortedPair conn.1 conn.2) edge_set
          else edge_set) acc ↔
      e ∈ acc ∨ ∃ c ∈ connections, c.1 ∈ S ∧ c.2 ∈ S ∧
        e = Utils.sortedPair c.1 c.2 := by
  induction connections generalizing acc with
  | nil => simp
  | cons c cs ih =>
    simp only [List.foldl_cons]
    by_cases hc : c.1 ∈ S ∧ c.2 ∈ S
    · rw [if_pos hc, ih]
      simp only [Finset.mem_insert, List.mem_cons]
      constructor
      · rintro ((rfl | h) | ⟨c', hc', h1, h2, rfl⟩)
        · exact Or.inr ⟨c, Or.inl rfl, hc.1, hc.2, rfl⟩
        · exact Or.inl h
        · exact Or.inr ⟨c', Or.inr hc', h1, h2, rfl⟩
      · rintro (h | ⟨c', (rfl | hc'), h1, h2, rfl⟩)
        · exact Or.inl (Or.inr h)
        · exact Or.inl (Or.inl rfl)
        · exact Or.inr ⟨c', hc', h1, h2, rfl⟩
    · rw [if_neg hc, ih]
      simp only [List.mem_cons]
      constructor
      · rintro (h | ⟨c', hc', h1, h2, rfl⟩)
        · exact Or.inl h
        · exact Or.inr ⟨c', Or.inr hc', h1, h2, rfl⟩
      · rintro (h | ⟨c', (rfl | hc'), h1, h2, rfl⟩)
        · exact Or.inl h
        · exact absurd ⟨h1, h2⟩ hc
        · exact Or.inr ⟨c', hc', h1, h2, rfl⟩

theorem mem_deduplicate_edges (connections : List (ℕ × ℕ)) (S : Finset ℕ)
    (e : ℕ × ℕ) :
    e ∈ Utils.deduplicate_edges connections S ↔
      ∃ c ∈ connections, c.1 ∈ S ∧ c.2 ∈ S ∧
        e = Utils.sortedPair c.1 c.2 := by
  rw [Utils.deduplicate_edges, mem_deduplicate_edges_aux]
  simp

theorem sortedPair_mem_left {a b : ℕ} {S : Finset ℕ} (ha : a ∈ S) (hb : b ∈ S) :
    (Utils.sortedPair a b).1 ∈ S ∧ (Utils.sortedPair a b).2 ∈ S ∧
      (Utils.sortedPair a b).1 ≤ (Utils.sortedPair a b).2 := by
  unfold Utils.sortedPair
  split
  · exact ⟨ha, hb, by assumption⟩
  · exact ⟨hb, ha, by omega⟩

/-- C3, counterexample.  The claim says the edge-building operation
"excludes every self-pair", but `deduplicate_edges` only checks that both
endpoints are in the universe: a connection with `Source = Target = 1` and
`1` in the universe produces the self-edge `(1, 1)`. -/
theorem C3_self_pair_counterexample :
    ((1, 1) : ℕ × ℕ) ∈ Utils.deduplicate_edges [(1, 1)] {1} := by decide

/-- C3, amended.  The edge-building operation produces only canonically
sorted pairs whose two endpoints both belong to the universe; but self-pairs
are NOT excluded: any connection whose source equals its target, with that
id in the universe, yields the self-edge `(a, a)` in the built edge set. -/
theorem C3_deduplicate_edges_endpoints (connections : List (ℕ × ℕ))
    (S : Finset ℕ) :
    (∀ e ∈ Utils.deduplicate_edges connections S,
        e.1 ∈ S ∧ e.2 ∈ S ∧ e.1 ≤ e.2) ∧
    (∀ a : ℕ, a ∈ S → (a, a) ∈ connections →
        (a, a) ∈ Utils.deduplicate_edges connections S) := by
  constructor
  · intro e he
    obtain ⟨c, _, h1, h2, rfl⟩ := (mem_deduplicate_edges connections S e).mp he
    exact sortedPair_mem_left h1 h2
  · intro a ha hmem
    refine (mem_deduplicate_edges connections S (a, a)).mpr
      ⟨(a, a), hmem, ha, ha, ?_⟩
    simp [Utils.sortedPair]

/-- C3, witness for the amended theorem at a concrete input. -/
theorem C3_witness :
    (((2, 7) : ℕ × ℕ) ∈ Utils.deduplicate_edges [(7, 2)] {2, 7} ∧
      (3 : ℕ) ∈ ({2, 3, 7} : Finset ℕ) ∧ ((3, 3) : ℕ × ℕ) ∈ [(7, 2), (3, 3)]) ∧
    ((2 : ℕ) ∈ ({2, 7} : Finset ℕ) ∧ (7 : ℕ) ∈ ({2, 7} : Finset ℕ) ∧ (2 : ℕ) ≤ 7) ∧
    ((3, 3) : ℕ × ℕ) ∈ Utils.deduplicate_edges [(7, 2), (3, 3)] {2, 3, 7} :=
  ⟨⟨by decide, by decide, by decide⟩,
    (C3_deduplicate_edges_endpoints [(7, 2)] {2, 7}).1 (2, 7) (by decide),
    (C3_deduplicate_edges_endpoints [(7, 2), (3, 3)] {2, 3, 7}).2 3
      (by decide) (by decide)⟩

/-! ## C6: the adaptive iteration budget -/

/-- C6, counterexample.  At 1000 edges the adaptive cap is 6000, and the
early-stop limit is `max(500, int(6000 * 0.05)) = 500`, not the claimed
5% of the cap (which is 300). -/
theorem C6_five_percent_counterexample :
    (OptLayout.calculate_adaptive_iterations 1000 200).1 = 6000 ∧
    OptLayout.auto_no_improve_limit 6000 = 500 ∧
    6000 * 5 / 100 = 300 ∧ (500 : ℕ) ≠ 300 := by decide

/-- C6, amended.  The adaptive iteration budget equals six iterations per
edge clamped between the floor 5000 and the ceiling 50000 (this part of the
claim holds); the derived early-stop no-improvement limit is NOT always 5%
of the cap: it is `max(500, floor(cap * 0.05))`, the 5% fraction clamped
below at 500. -/
theorem C6_adaptive_iterations (num_edges num_actors : ℕ) :
    5000 ≤ (OptLayout.calculate_adaptive_iterations num_edges num_actors).1 ∧
    (OptLayout.calculate_adaptive_iterations num_edges num_actors).1 ≤ 50000 ∧
    (num_edges * 6 ≤ 5000 →
      (OptLayout.calculate_adaptive_iterations num_edges num_actors).1 = 5000) ∧
    (5000 ≤ num_edges * 6 → num_edges * 6 ≤ 50000 →
      (OptLayout.calculate_adaptive_iterations num_edges num_actors).1 =
        num_edges * 6) ∧
    (50000 ≤ num_edges * 6 →
      (OptLayout.calculate_adaptive_iterations num_edges num_actors).1 = 50000) ∧
    OptLayout.auto_no_improve_limit
        (OptLayout.calculate_adaptive_iterations num_edges num_actors).1 =
      max 500 ((OptLayout.calculate_adaptive_iterations num_edges num_actors).1
        * 5 / 100) := by
  unfold OptLayout.calculate_adaptive_iterations OptLayout.auto_no_improve_limit
  dsimp only
  omega

/-- C6, witness for the amended theorem at a concrete input (2000 edges:
the cap is in the proportional regime and equals 12000). -/
theorem C6_witness :
    (5000 ≤ 2000 * 6 ∧ 2000 * 6 ≤ 50000) ∧
    (OptLayout.calculate_adaptive_iterations 2000 100).1 = 2000 * 6 :=
  ⟨⟨by decide, by decide⟩,
    (C6_adaptive_iterations 2000 100).2.2.2.1 (by decide) (by decide)⟩

/-! ## C9: degree-centrality ordering -/

theorem degreeLE_trans (degrees : ℕ → ℕ) (a b c : ℕ)
    (hab : decide (degrees b ≤ degrees a) = true)
    (hbc : decide (degrees c ≤ degrees b) = true) :
    decide (degrees c ≤ degrees a) = true := by
  simp only [decide_eq_true_eq] at *
  omega

theorem degreeLE_total (degrees : ℕ → ℕ) (a b : ℕ) :
    (decide (degrees b ≤ degrees a) || decide (degrees a ≤ degrees b)) = true := by
  simp only [Bool.or_eq_true, decide_eq_true_eq]
  omega

/-- C9.  The degree-centrality ordering sorts the actor list by degree
descending, is a permutation of the input, breaks degree ties by stable
input order (any two equal-degree actors appear in the sorted list in their
input order), and assigns ordinal `k` to the `k`-th actor of the sorted
list — a deterministic function of the input order and the degrees. -/
theorem C9_centrality_ordering (actors : List ℕ) (degrees : ℕ → ℕ)
    (hnd : actors.Nodup) :
    (Centrality.actors_by_degree actors degrees).Perm actors ∧
    (Centrality.actors_by_degree actors degrees).Pairwise
      (fun a b => degrees b ≤ degrees a) ∧
    (∀ a b : ℕ, degrees a = degrees b → List.Sublist [a, b] actors →
      List.Sublist [a, b] (Centrality.actors_by_degree actors degrees)) ∧
    (∀ (k : ℕ) (hk : k < (Centrality.actors_by_degree actors degrees).length),
      Centrality.actor_ordinals actors degrees
        ((Centrality.actors_by_degree actors degrees).get ⟨k, hk⟩) = k) := by
  refine ⟨List.mergeSort_perm actors _, ?_, ?_, ?_⟩
  · have h := List.sorted_mergeSort (degreeLE_trans degrees)
      (degreeLE_total degrees) actors
    exact h.imp fun hab => of_decide_eq_true hab
  · intro a b hdeg hsub
    exact List.pair_sublist_mergeSort (degreeLE_trans degrees)
      (degreeLE_total degrees) (by simp [hdeg]) hsub
  · intro k hk
    have hnd2 : (Centrality.actors_by_degree actors degrees).Nodup :=
      ((List.mergeSort_perm actors _).nodup_iff).mpr hnd
    unfold Centrality.actor_ordinals
    rw [List.get_eq_getElem]
    exact List.indexOf_getElem hnd2 k hk

/-- C9, witness at a concrete input: actors `[5, 7]` with degree map the
identity, so the sorted order is `[7, 5]`. -/
theorem C9_witness :
    ([5, 7] : List ℕ).Nodup ∧
    ((Centrality.actors_by_degree [5, 7] (fun n => n)).Perm [5, 7] ∧
      (Centrality.actors_by_degree [5, 7] (fun n => n)).Pairwise
        (fun a b => (fun n : ℕ => n) b ≤ (fun n : ℕ => n) a) ∧
      (∀ a b : ℕ, (fun n : ℕ => n) a = (fun n : ℕ => n) b →
        List.Sublist [a, b] [5, 7] →
        List.Sublist [a, b] (Centrality.actors_by_degree [5, 7] (fun n => n))) ∧
      (∀ (k : ℕ)
          (hk : k < (Centrality.actors_by_degree [5, 7] (fun n => n)).length),
        Centrality.actor_ordinals [5, 7] (fun n => n)
          ((Centrality.actors_by_degree [5, 7] (fun n => n)).get ⟨k, hk⟩) = k)) :=
  ⟨by decide, C9_centrality_ordering [5, 7] (fun n => n) (by decide)⟩

/-! ## C4: the slot assignment stays a bijection -/

theorem swapped_self {α : Type} (f : ℕ → α) (i : ℕ) :
    SwapOpt.swapped f i i = f := by
  funext v
  unfold SwapOpt.swapped
  by_cases h : v = i <;> simp [h]

theorem swapped_apply_left {α : Type} (f : ℕ → α) (i j : ℕ) :
    SwapOpt.swapped f i j i = f j := by
  simp [SwapOpt.swapped]

theorem swapped_apply_right {α : Type} (f : ℕ → α) (i j : ℕ) (hij : j ≠ i) :
    SwapOpt.swapped f i j j = f i := by
  simp [SwapOpt.swapped, hij]

theorem swapped_apply_other {α : Type} (f : ℕ → α) (i j v : ℕ)
    (hvi : v ≠ i) (hvj : v ≠ j) : SwapOpt.swapped f i j v = f v := by
  simp [SwapOpt.swapped, hvi, hvj]

theorem map_swapped_perm {α : Type} (f : ℕ → α) (l : List ℕ) (i j : ℕ)
    (hnd : l.Nodup) (hi : i ∈ l) (hj : j ∈ l) :
    (l.map (SwapOpt.swapped f i j)).Perm (l.map f) := by
  by_cases hij : i = j
  · subst hij
    rw [swapped_self]
  · have hji : j ≠ i := fun h => hij h.symm
    have h1 : l.Perm (i :: l.erase i) := List.perm_cons_erase hi
    have hj' : j ∈ l.erase i := (List.Nodup.mem_erase_iff hnd).mpr ⟨hji, hj⟩
    have h2 : (l.erase i).Perm (j :: (l.erase i).erase j) :=
      List.perm_cons_erase hj'
    have hperm : l.Perm (i :: j :: (l.erase i).erase j) := h1.trans (h2.cons i)
    have hl2 : ((l.erase i).erase j).map (SwapOpt.swapped f i j) =
        ((l.erase i).erase j).map f := by
      apply List.map_congr_left
      intro x hx
      have hx1 : x ∈ l.erase i := List.mem_of_mem_erase hx
      have hxj : x ≠ j := ((List.Nodup.mem_erase_iff (hnd.erase i)).mp hx).1
      have hxi : x ≠ i := ((List.Nodup.mem_erase_iff hnd).mp hx1).1
      exact swapped_apply_other f i j x hxi hxj
    have key1 : (i :: j :: (l.erase i).erase j).map (SwapOpt.swapped f i j) =
        f j :: f i :: ((l.erase i).erase j).map f := by
      simp only [List.map_cons, swapped_apply_left,
        swapped_apply_right f i j hji, hl2]
    have key2 : (i :: j :: (l.erase i).erase j).map f =
        f i :: f j :: ((l.erase i).erase j).map f := by
      simp only [List.map_cons]
    refine ((hperm.map (SwapOpt.swapped f i j)).trans ?_).trans
      (hperm.map f).symm
    rw [key1, key2]
    exact List.Perm.swap _ _ _

theorem map_applySwaps_perm (l : List ℕ) (swaps : List (ℕ × ℕ))
    (slots : ℕ → ℕ) (hnd : l.Nodup)
    (hsw : ∀ p ∈ swaps, p.1 ∈ l ∧ p.2 ∈ l) :
    (l.map (SwapOpt.applySwaps swaps slots)).Perm (l.map slots) := by
  induction swaps generalizing slots with
  | nil => exact List.Perm.refl _
  | cons p ps ih =>
    have hp := hsw p (List.mem_cons_self p ps)
    have hrest : ∀ q ∈ ps, q.1 ∈ l ∧ q.2 ∈ l := fun q hq =>
      hsw q (List.mem_cons_of_mem p hq)
    show (l.map (SwapOpt.applySwaps ps (SwapOpt.swapped slots p.1 p.2))).Perm
      (l.map slots)
    exact (ih (SwapOpt.swapped slots p.1 p.2) hrest).trans
      (map_swapped_perm slots l p.1 p.2 hnd hp.1 hp.2)

theorem map_indexOf_self (l : List ℕ) (hnd : l.Nodup) :
    l.map (fun a => l.indexOf a) = List.range l.length := by
  apply List.ext_getElem
  · simp
  · intro k h1 h2
    simp only [List.getElem_map, List.getElem_range]
    exact List.indexOf_getElem hnd k (by simpa using h1)

theorem initial_ordinals_perm_range (actors : List ℕ) (degrees : ℕ → ℕ)
    (hnd : actors.Nodup) :
    (actors.map (Centrality.actor_ordinals actors degrees)).Perm
      (List.range actors.length) := by
  have hperm : (Centrality.actors_by_degree actors degrees).Perm actors :=
    List.mergeSort_perm actors _
  have hnd2 : (Centrality.actors_by_degree actors degrees).Nodup :=
    (hperm.nodup_iff).mpr hnd
  have h1 : (actors.map (Centrality.actor_ordinals actors degrees)).Perm
      ((Centrality.actors_by_degree actors degrees).map
        (Centrality.actor_ordinals actors degrees)) :=
    (hperm.map _).symm
  have h2 : (Centrality.actors_by_degree actors degrees).map
      (Centrality.actor_ordinals actors degrees) =
      List.range (Centrality.actors_by_degree actors degrees).length :=
    map_indexOf_self _ hnd2
  rw [h2, hperm.length_eq] at h1
  exact h1

theorem perm_range_mergeSort_eq (m : List ℕ) (n : ℕ)
    (hperm : m.Perm (List.range n)) :
    m.mergeSort (fun a b => decide (a ≤ b)) = List.range n := by
  have htrans : ∀ a b c : ℕ, decide (a ≤ b) = true → decide (b ≤ c) = true →
      decide (a ≤ c) = true := by
    intro a b c hab hbc
    simp only [decide_eq_true_eq] at *
    omega
  have htotal : ∀ a b : ℕ, (decide (a ≤ b) || decide (b ≤ a)) = true := by
    intro a b
    simp only [Bool.or_eq_true, decide_eq_true_eq]
    omega
  have hsorted : (m.mergeSort (fun a b => decide (a ≤ b))).Sorted (· ≤ ·) :=
    (List.sorted_mergeSort htrans htotal m).imp fun h => of_decide_eq_true h
  exact List.eq_of_perm_of_sorted ((List.mergeSort_perm m _).trans hperm)
    hsorted (List.sorted_le_range n)

/-- C4.  Starting from the ordering stage's slot assignment, after any
sequence of swaps whose members are drawn from the actor list the
node-to-slot map is still a bijection onto `{0, …, n-1}`: the list of slot
values is a permutation of `0, …, n-1`, and sorting it yields exactly
`range n`. -/
theorem C4_slots_bijection (actors : List ℕ) (degrees : ℕ → ℕ)
    (swaps : List (ℕ × ℕ)) (hnd : actors.Nodup)
    (hsw : ∀ p ∈ swaps, p.1 ∈ actors ∧ p.2 ∈ actors) :
    (actors.map
        (SwapOpt.applySwaps swaps (Centrality.actor_ordinals actors degrees))).Perm
      (List.range actors.length) ∧
    (actors.map
        (SwapOpt.applySwaps swaps
          (Centrality.actor_ordinals actors degrees))).mergeSort
        (fun a b => decide (a ≤ b)) = List.range actors.length := by
  have hperm : (actors.map
      (SwapOpt.applySwaps swaps (Centrality.actor_ordinals actors degrees))).Perm
      (List.range actors.length) :=
    (map_applySwaps_perm actors swaps _ hnd hsw).trans
      (initial_ordinals_perm_range actors degrees hnd)
  exact ⟨hperm, perm_range_mergeSort_eq _ _ hperm⟩

/-- C4, witness at a concrete input: two actors, one swap. -/
theorem C4_witness :
    (([3, 9] : List ℕ).Nodup ∧
      (∀ p ∈ ([(3, 9)] : List (ℕ × ℕ)), p.1 ∈ [3, 9] ∧ p.2 ∈ [3, 9])) ∧
    (([3, 9].map
        (SwapOpt.applySwaps [(3, 9)]
          (Centrality.actor_ordinals [3, 9] (fun n => n)))).Perm
      (List.range 2) ∧
    ([3, 9].map
        (SwapOpt.applySwaps [(3, 9)]
          (Centrality.actor_ordinals [3, 9] (fun n => n)))).mergeSort
        (fun a b => decide (a ≤ b)) = List.range 2) :=
  ⟨⟨by decide, by decide⟩,
    C4_slots_bijection [3, 9] (fun n => n) [(3, 9)] (by decide) (by decide)⟩

/-! ## C8: metrics, including the zero-edge degenerate case -/

/-- C8.  On an empty edge set `calculate_metrics` returns the all-zero
record (it is a total function, so no error is possible); on a non-empty
edge set it returns the count, sum, mean, minimum and maximum of the
per-edge Euclidean distances. -/
theorem C8_calculate_metrics (positions : ℕ → ℝ × ℝ) (edges : List (ℕ × ℕ)) :
    Utils.calculate_metrics positions [] =
      ⟨0, 0, 0, 0, 0⟩ ∧
    (edges ≠ [] →
      (Utils.calculate_metrics positions edges).edge_count = edges.length ∧
      (Utils.calculate_metrics positions edges).total_distance =
        (edges.map (Utils.edgeDistance positions)).sum ∧
      (Utils.calculate_metrics positions edges).avg_distance =
        (edges.map (Utils.edgeDistance positions)).sum / (edges.length : ℝ) ∧
      ((Utils.calculate_metrics positions edges).min_distance ∈
          edges.map (Utils.edgeDistance positions) ∧
        ∀ x ∈ edges.map (Utils.edgeDistance positions),
          (Utils.calculate_metrics positions edges).min_distance ≤ x) ∧
      ((Utils.calculate_metrics positions edges).max_distance ∈
          edges.map (Utils.edgeDistance positions) ∧
        ∀ x ∈ edges.map (Utils.edgeDistance positions),
          x ≤ (Utils.calculate_metrics positions edges).max_distance)) := by
  refine ⟨rfl, ?_⟩
  intro hne
  match edges with
  | [] => exact absurd rfl hne
  | e :: es =>
    refine ⟨rfl, ?_, ?_, ⟨?_, ?_⟩, ⟨?_, ?_⟩⟩
    · show Utils.edgeDistance positions e +
        (es.map (Utils.edgeDistance positions)).sum = _
      rw [List.map_cons, List.sum_cons]
    · show (Utils.edgeDistance positions e +
        (es.map (Utils.edgeDistance positions)).sum) / _ = _
      rw [List.map_cons, List.sum_cons, List.length_cons]
    · exact foldl_min_mem (es.map (Utils.edgeDistance positions))
        (Utils.edgeDistance positions e)
    · intro x hx
      rw [List.map_cons] at hx
      rcases List.mem_cons.mp hx with rfl | hx
      · exact (foldl_min_le (es.map (Utils.edgeDistance positions))
          (Utils.edgeDistance positions e)).1
      · exact (foldl_min_le (es.map (Utils.edgeDistance positions))
          (Utils.edgeDistance positions e)).2 x hx
    · exact foldl_max_mem (es.map (Utils.edgeDistance positions))
        (Utils.edgeDistance positions e)
    · intro x hx
      rw [List.map_cons] at hx
      rcases List.mem_cons.mp hx with rfl | hx
      · exact (foldl_max_ge (es.map (Utils.edgeDistance positions))
          (Utils.edgeDistance positions e)).1
      · exact (foldl_max_ge (es.map (Utils.edgeDistance positions))
          (Utils.edgeDistance positions e)).2 x hx

/-- C8, witness at a concrete non-empty input. -/
theorem C8_witness :
    (([(0, 1)] : List (ℕ × ℕ)) ≠ []) ∧
    ((Utils.calculate_metrics (fun _ => ((0 : ℝ), (0 : ℝ))) [(0, 1)]).edge_count =
        ([(0, 1)] : List (ℕ × ℕ)).length ∧
      (Utils.calculate_metrics (fun _ => ((0 : ℝ), (0 : ℝ))) [(0, 1)]).total_distance =
        (([(0, 1)] : List (ℕ × ℕ)).map
          (Utils.edgeDistance (fun _ => ((0 : ℝ), (0 : ℝ))))).sum ∧
      (Utils.calculate_metrics (fun _ => ((0 : ℝ), (0 : ℝ))) [(0, 1)]).avg_distance =
        (([(0, 1)] : List (ℕ × ℕ)).map
          (Utils.edgeDistance (fun _ => ((0 : ℝ), (0 : ℝ))))).sum /
          ((([(0, 1)] : List (ℕ × ℕ)).length : ℝ)) ∧
      ((Utils.calculate_metrics (fun _ => ((0 : ℝ), (0 : ℝ))) [(0, 1)]).min_distance ∈
          ([(0, 1)] : List (ℕ × ℕ)).map
            (Utils.edgeDistance (fun _ => ((0 : ℝ), (0 : ℝ)))) ∧
        ∀ x ∈ ([(0, 1)] : List (ℕ × ℕ)).map
            (Utils.edgeDistance (fun _ => ((0 : ℝ), (0 : ℝ)))),
          (Utils.calculate_metrics (fun _ => ((0 : ℝ), (0 : ℝ)))
            [(0, 1)]).min_distance ≤ x) ∧
      ((Utils.calculate_metrics (fun _ => ((0 : ℝ), (0 : ℝ))) [(0, 1)]).max_distance ∈
          ([(0, 1)] : List (ℕ × ℕ)).map
            (Utils.edgeDistance (fun _ => ((0 : ℝ), (0 : ℝ)))) ∧
        ∀ x ∈ ([(0, 1)] : List (ℕ × ℕ)).map
            (Utils.edgeDistance (fun _ => ((0 : ℝ), (0 : ℝ)))),
          x ≤ (Utils.calculate_metrics (fun _ => ((0 : ℝ), (0 : ℝ)))
            [(0, 1)]).max_distance)) :=
  ⟨by decide,
    (C8_calculate_metrics (fun _ => ((0 : ℝ), (0 : ℝ))) [(0, 1)]).2 (by decide)⟩

/-! ## C7: the force-relaxation step cap -/

theorem hypot_nonneg (v : ℝ × ℝ) : 0 ≤ ForceRelax.hypot v :=
  Real.sqrt_nonneg _

theorem hypot_scale (sx sy c : ℝ) (hc : 0 ≤ c) :
    ForceRelax.hypot (sx * c, sy * c) = c * ForceRelax.hypot (sx, sy) := by
  unfold ForceRelax.hypot
  rw [show (sx * c) ^ 2 + (sy * c) ^ 2 = c ^ 2 * (sx ^ 2 + sy ^ 2) by ring,
    Real.sqrt_mul (by positivity), Real.sqrt_sq hc]

theorem cappedStep_spec (force : ℝ × ℝ) :
    ForceRelax.hypot (ForceRelax.cappedStep force) ≤ ForceRelax.MAX_STEP ∧
    (ForceRelax.MAX_STEP <
        ForceRelax.hypot (ForceRelax.STEP_SIZE * force.1,
          ForceRelax.STEP_SIZE * force.2) →
      ForceRelax.cappedStep force =
        (ForceRelax.STEP_SIZE * force.1 *
            (ForceRelax.MAX_STEP /
              ForceRelax.hypot (ForceRelax.STEP_SIZE * force.1,
                ForceRelax.STEP_SIZE * force.2)),
          ForceRelax.STEP_SIZE * force.2 *
            (ForceRelax.MAX_STEP /
              ForceRelax.hypot (ForceRelax.STEP_SIZE * force.1,
                ForceRelax.STEP_SIZE * force.2))) ∧
      ForceRelax.hypot (ForceRelax.cappedStep force) = ForceRelax.MAX_STEP) := by
  have hmax : (0 : ℝ) < ForceRelax.MAX_STEP := by norm_num [ForceRelax.MAX_STEP]
  by_cases h : ForceRelax.MAX_STEP <
      ForceRelax.hypot (ForceRelax.STEP_SIZE * force.1,
        ForceRelax.STEP_SIZE * force.2)
  · have hm : (0 : ℝ) < ForceRelax.hypot (ForceRelax.STEP_SIZE * force.1,
        ForceRelax.STEP_SIZE * force.2) := lt_trans hmax h
    have hstep : ForceRelax.cappedStep force =
        (ForceRelax.STEP_SIZE * force.1 *
            (ForceRelax.MAX_STEP /
              ForceRelax.hypot (ForceRelax.STEP_SIZE * force.1,
                ForceRelax.STEP_SIZE * force.2)),
          ForceRelax.STEP_SIZE * force.2 *
            (ForceRelax.MAX_STEP /
              ForceRelax.hypot (ForceRelax.STEP_SIZE * force.1,
                ForceRelax.STEP_SIZE * force.2))) := by
      unfold ForceRelax.cappedStep
      dsimp only
      rw [if_pos h]
    have hmag : ForceRelax.hypot (ForceRelax.cappedStep force) =
        ForceRelax.MAX_STEP := by
      rw [hstep, hypot_scale _ _ _ (by positivity)]
      field_simp
    exact ⟨le_of_eq hmag, fun _ => ⟨hstep, hmag⟩⟩
  · have hstep : ForceRelax.cappedStep force =
        (ForceRelax.STEP_SIZE * force.1, ForceRelax.STEP_SIZE * force.2) := by
      unfold ForceRelax.cappedStep
      dsimp only
      rw [if_neg h]
    refine ⟨?_, fun hcontra => absurd hcontra h⟩
    rw [hstep]
    exact not_lt.mp h

/-- C7.  In every iteration of the force relaxer, the displacement applied
to any node's coordinate has magnitude at most the configured `MAX_STEP`;
and whenever the raw step (`STEP_SIZE` times the node's net force) exceeds
the cap, the applied displacement is that raw step rescaled by
`MAX_STEP / magnitude`, so its direction is preserved and its magnitude is
exactly `MAX_STEP`. -/
theorem C7_force_step_capped (edges : List (ℕ × ℕ)) (actor_ids : List ℕ)
    (positions original_positions : ℕ → ℝ × ℝ) (v : ℕ) :
    ForceRelax.hypot
        ((ForceRelax.iteratePositions edges actor_ids positions
            original_positions v).1 - (positions v).1,
          (ForceRelax.iteratePositions edges actor_ids positions
            original_positions v).2 - (positions v).2) ≤ ForceRelax.MAX_STEP ∧
    (ForceRelax.MAX_STEP <
        ForceRelax.hypot
          (ForceRelax.STEP_SIZE *
              (ForceRelax.netForces edges actor_ids positions
                original_positions v).1,
            ForceRelax.STEP_SIZE *
              (ForceRelax.netForces edges actor_ids positions
                original_positions v).2) →
      ((ForceRelax.iteratePositions edges actor_ids positions
            original_positions v).1 - (positions v).1,
          (ForceRelax.iteratePositions edges actor_ids positions
            original_positions v).2 - (positions v).2) =
        (ForceRelax.STEP_SIZE *
            (ForceRelax.netForces edges actor_ids positions
              original_positions v).1 *
            (ForceRelax.MAX_STEP /
              ForceRelax.hypot
                (ForceRelax.STEP_SIZE *
                    (ForceRelax.netForces edges actor_ids positions
                      original_positions v).1,
                  ForceRelax.STEP_SIZE *
                    (ForceRelax.netForces edges actor_ids positions
                      original_positions v).2)),
          ForceRelax.STEP_SIZE *
            (ForceRelax.netForces edges actor_ids positions
              original_positions v).2 *
            (ForceRelax.MAX_STEP /
              ForceRelax.hypot
                (ForceRelax.STEP_SIZE *
                    (ForceRelax.netForces edges actor_ids positions
                      original_positions v).1,
                  ForceRelax.STEP_SIZE *
                    (ForceRelax.netForces edges actor_ids positions
                      original_positions v).2))) ∧
      ForceRelax.hypot
          ((ForceRelax.iteratePositions edges actor_ids positions
              original_positions v).1 - (positions v).1,
            (ForceRelax.iteratePositions edges actor_ids positions
              original_positions v).2 - (positions v).2) =
        ForceRelax.MAX_STEP) := by
  have hdisp : ((ForceRelax.iteratePositions edges actor_ids positions
        original_positions v).1 - (positions v).1,
      (ForceRelax.iteratePositions edges actor_ids positions
        original_positions v).2 - (positions v).2) =
      ForceRelax.cappedStep
        (ForceRelax.netForces edges actor_ids positions original_positions v) := by
    unfold ForceRelax.iteratePositions
    dsimp only
    refine Prod.ext ?_ ?_ <;> ring
  rw [hdisp]
  exact cappedStep_spec
    (ForceRelax.netForces edges actor_ids positions original_positions v)

/-- C7, witness at a concrete input: no edges, anchor force alone gives raw
step `(8, 0)` of magnitude `8 > 5`, so the implication's hypothesis holds
and the applied displacement has magnitude exactly `MAX_STEP`. -/
theorem C7_witness :
    (ForceRelax.MAX_STEP <
      ForceRelax.hypot
        (ForceRelax.STEP_SIZE *
            (ForceRelax.netForces [] [] (fun _ => ((0 : ℝ), (0 : ℝ)))
              (fun _ => ((20000 : ℝ), (0 : ℝ))) 0).1,
          ForceRelax.STEP_SIZE *
            (ForceRelax.netForces [] [] (fun _ => ((0 : ℝ), (0 : ℝ)))
              (fun _ => ((20000 : ℝ), (0 : ℝ))) 0).2)) ∧
    (ForceRelax.hypot
        ((ForceRelax.iteratePositions [] [] (fun _ => ((0 : ℝ), (0 : ℝ)))
            (fun _ => ((20000 : ℝ), (0 : ℝ))) 0).1 -
            ((fun _ => ((0 : ℝ), (0 : ℝ))) 0).1,
          (ForceRelax.iteratePositions [] [] (fun _ => ((0 : ℝ), (0 : ℝ)))
            (fun _ => ((20000 : ℝ), (0 : ℝ))) 0).2 -
            ((fun _ => ((0 : ℝ), (0 : ℝ))) 0).2) ≤ ForceRelax.MAX_STEP ∧
      ForceRelax.hypot
        ((ForceRelax.iteratePositions [] [] (fun _ => ((0 : ℝ), (0 : ℝ)))
            (fun _ => ((20000 : ℝ), (0 : ℝ))) 0).1 -
            ((fun _ => ((0 : ℝ), (0 : ℝ))) 0).1,
          (ForceRelax.iteratePositions [] [] (fun _ => ((0 : ℝ), (0 : ℝ)))
            (fun _ => ((20000 : ℝ), (0 : ℝ))) 0).2 -
            ((fun _ => ((0 : ℝ), (0 : ℝ))) 0).2) = ForceRelax.MAX_STEP) := by
  have hnf : ForceRelax.netForces [] [] (fun _ => ((0 : ℝ), (0 : ℝ)))
      (fun _ => ((20000 : ℝ), (0 : ℝ))) 0 = (400, 0) := by
    unfold ForceRelax.netForces ForceRelax.upperPairs
    dsimp only [List.foldl_nil]
    norm_num [ForceRelax.ANCHOR_STRENGTH]
  have hB : ForceRelax.MAX_STEP <
      ForceRelax.hypot
        (ForceRelax.STEP_SIZE *
            (ForceRelax.netForces [] [] (fun _ => ((0 : ℝ), (0 : ℝ)))
              (fun _ => ((20000 : ℝ), (0 : ℝ))) 0).1,
          ForceRelax.STEP_SIZE *
            (ForceRelax.netForces [] [] (fun _ => ((0 : ℝ), (0 : ℝ)))
              (fun _ => ((20000 : ℝ), (0 : ℝ))) 0).2) := by
    rw [hnf]
    have h8 : ForceRelax.hypot (ForceRelax.STEP_SIZE * 400,
        ForceRelax.STEP_SIZE * 0) = 8 := by
      unfold ForceRelax.hypot ForceRelax.STEP_SIZE
      rw [show ((0.02 : ℝ) * 400) ^ 2 + (0.02 * 0) ^ 2 = 8 ^ 2 by norm_num]
      exact Real.sqrt_sq (by norm_num)
    rw [h8]
    norm_num [ForceRelax.MAX_STEP]
  exact ⟨hB,
    (C7_force_step_capped [] [] (fun _ => ((0 : ℝ), (0 : ℝ)))
      (fun _ => ((20000 : ℝ), (0 : ℝ))) 0).1,
    ((C7_force_step_capped [] [] (fun _ => ((0 : ℝ), (0 : ℝ)))
      (fun _ => ((20000 : ℝ), (0 : ℝ))) 0).2 hB).2⟩

/-! ## C10: the two Vogel spiral implementations -/

theorem two_lt_sqrt_five : (2 : ℝ) < Real.sqrt 5 := by
  have h : Real.sqrt 4 < Real.sqrt 5 := Real.sqrt_lt_sqrt (by norm_num) (by norm_num)
  rwa [show (4 : ℝ) = 2 ^ 2 by norm_num, Real.sqrt_sq (by norm_num)] at h

theorem sqrt_five_lt_three : Real.sqrt 5 < 3 := by
  have h : Real.sqrt 5 < Real.sqrt 9 := Real.sqrt_lt_sqrt (by norm_num) (by norm_num)
  rwa [show (9 : ℝ) = 3 ^ 2 by norm_num, Real.sqrt_sq (by norm_num)] at h

theorem golden_angle_gt : (120 : ℝ) < Utils.GOLDEN_ANGLE := by
  unfold Utils.GOLDEN_ANGLE Utils.GOLDEN_RATIO
  have h2 := two_lt_sqrt_five
  have hpos : (0 : ℝ) < (1 + Real.sqrt 5) / 2 := by linarith
  have hinv : 1 / ((1 + Real.sqrt 5) / 2) < 2 / 3 := by
    rw [div_lt_div_iff₀ hpos (by norm_num)]
    linarith
  linarith

theorem golden_angle_lt : Utils.GOLDEN_ANGLE < 180 := by
  unfold Utils.GOLDEN_ANGLE Utils.GOLDEN_RATIO
  have h3 := sqrt_five_lt_three
  have h2 := two_lt_sqrt_five
  have hpos : (0 : ℝ) < (1 + Real.sqrt 5) / 2 := by linarith
  have hinv : (1 : ℝ) / 2 < 1 / ((1 + Real.sqrt 5) / 2) := by
    rw [div_lt_div_iff₀ (by norm_num) hpos]
    linarith
  linarith

/-- C10, counterexample.  The two Vogel implementations disagree already at
slot 1 with the default spacing 80: the shared utility turns by
`360 * (1 - 1/φ) ≈ 137.50776…` degrees, the large-scale optimizer by
exactly `137.5` degrees, and on `(0°, 180°)` the cosine is injective, so
the x-coordinates differ. -/
theorem C10_vogel_implementations_differ :
    Utils.calculate_vogel_position 1 80 ≠ OptLayout.calculate_vogel_position 1 80 := by
  intro h
  have h1 := congrArg Prod.fst h
  simp only [Utils.calculate_vogel_position, OptLayout.calculate_vogel_position,
    OptLayout.GOLDEN_ANGLE, Nat.cast_one, one_mul] at h1
  rw [mul_assoc, mul_assoc] at h1
  have h2 := mul_left_cancel₀ (by norm_num : (80 : ℝ) ≠ 0) h1
  have hcos : Real.cos (Utils.GOLDEN_ANGLE * (Real.pi / 180)) =
      Real.cos ((137.5 : ℝ) * (Real.pi / 180)) :=
    mul_left_cancel₀ (ne_of_gt (by positivity : (0 : ℝ) < Real.sqrt (1 + 1))) h2
  have hπ : (0 : ℝ) < Real.pi := Real.pi_pos
  have hscale : (0 : ℝ) < Real.pi / 180 := by positivity
  have hGreater := golden_angle_gt
  have hLess := golden_angle_lt
  have hA : Utils.GOLDEN_ANGLE * (Real.pi / 180) ∈ Set.Icc (0 : ℝ) Real.pi := by
    constructor
    · nlinarith
    · nlinarith
  have hB : (137.5 : ℝ) * (Real.pi / 180) ∈ Set.Icc (0 : ℝ) Real.pi := by
    constructor
    · positivity
    · nlinarith
  have heq : Utils.GOLDEN_ANGLE * (Real.pi / 180) =
      (137.5 : ℝ) * (Real.pi / 180) := Real.injOn_cos hA hB hcos
  have hGeq : Utils.GOLDEN_ANGLE = 137.5 :=
    mul_right_cancel₀ (ne_of_gt hscale) heq
  unfold Utils.GOLDEN_ANGLE Utils.GOLDEN_RATIO at hGeq
  have hs0 : (0 : ℝ) ≤ Real.sqrt 5 := Real.sqrt_nonneg 5
  have h1s : (1 : ℝ) + Real.sqrt 5 ≠ 0 := by positivity
  field_simp at hGeq
  have hsval : Real.sqrt 5 = 199 / 89 := by linarith
  have hsq : Real.sqrt 5 ^ 2 = 5 := Real.sq_sqrt (by norm_num)
  rw [hsval] at hsq
  norm_num at hsq

/-- C10, amended.  The two Vogel implementations agree exactly at slot 0
for every spacing (both place it at angle 0 on the innermost ring), but
they are not equal for every slot index: their golden-angle constants
differ (`360 * (1 - 1/φ) ≈ 137.50776` vs `137.5`), and at slot 1 with
spacing 80 the computed coordinates already differ. -/
theorem C10_vogel_agree_at_slot_zero (spacing : ℝ) :
    Utils.calculate_vogel_position 0 spacing =
      OptLayout.calculate_vogel_position 0 spacing := by
  unfold Utils.calculate_vogel_position OptLayout.calculate_vogel_position
  norm_num

/-! ## C1: exactness of the swap delta -/

theorem pairDist_symm (p : ℕ → ℝ × ℝ) (a b : ℕ) :
    SwapOpt.pairDist p a b = SwapOpt.pairDist p b a := by
  unfold SwapOpt.pairDist Utils.euclidean_distance
  ring_nf

theorem mem_nbrList (E : List (ℕ × ℕ)) (v u : ℕ) :
    u ∈ SwapOpt.nbrList E v ↔ (v, u) ∈ E ∨ (u, v) ∈ E := by
  unfold SwapOpt.nbrList
  rw [List.mem_filterMap]
  constructor
  · rintro ⟨e, he, hfe⟩
    by_cases h1 : e.1 = v
    · rw [if_pos h1] at hfe
      have h2 : e.2 = u := Option.some.inj hfe
      have he2 : e = (v, u) := Prod.ext h1 h2
      exact Or.inl (he2 ▸ he)
    · rw [if_neg h1] at hfe
      by_cases h2 : e.2 = v
      · rw [if_pos h2] at hfe
        have h3 : e.1 = u := Option.some.inj hfe
        have he2 : e = (u, v) := Prod.ext h3 h2
        exact Or.inr (he2 ▸ he)
      · rw [if_neg h2] at hfe
        exact absurd hfe (by simp)
  · rintro (h | h)
    · exact ⟨(v, u), h, by simp⟩
    · refine ⟨(u, v), h, ?_⟩
      by_cases huv : u = v
      · simp [huv]
      · simp [huv]

theorem nbrList_nodup (E : List (ℕ × ℕ)) (v : ℕ)
    (hc : ∀ e ∈ E, e.1 < e.2) (hn : E.Nodup) :
    (SwapOpt.nbrList E v).Nodup := by
  induction E with
  | nil => simp [SwapOpt.nbrList]
  | cons e E ih =>
    obtain ⟨hne, hn'⟩ := List.nodup_cons.mp hn
    have hc' : ∀ e' ∈ E, e'.1 < e'.2 :=
      fun e' he' => hc e' (List.mem_cons_of_mem _ he')
    have hce := hc e (List.mem_cons_self _ _)
    obtain ⟨a, b⟩ := e
    simp only at hce
    by_cases hav : a = v
    · have hlist : SwapOpt.nbrList ((a, b) :: E) v = b :: SwapOpt.nbrList E v := by
        simp [SwapOpt.nbrList, List.filterMap_cons, hav]
      rw [hlist, List.nodup_cons]
      refine ⟨?_, ih hc' hn'⟩
      intro hmem
      rcases (mem_nbrList E v b).mp hmem with hvb | hbv
      · exact hne (by rwa [hav])
      · have := hc' _ hbv
        simp only at this
        omega
    · by_cases hbv : b = v
      · have hlist : SwapOpt.nbrList ((a, b) :: E) v =
            a :: SwapOpt.nbrList E v := by
          simp [SwapOpt.nbrList, List.filterMap_cons, hav, hbv]
        rw [hlist, List.nodup_cons]
        refine ⟨?_, ih hc' hn'⟩
        intro hmem
        rcases (mem_nbrList E v a).mp hmem with hva | hav2
        · have := hc' _ hva
          simp only at this
          omega
        · exact hne (by rwa [hbv])
      · have hlist : SwapOpt.nbrList ((a, b) :: E) v = SwapOpt.nbrList E v := by
          simp [SwapOpt.nbrList, List.filterMap_cons, hav, hbv]
        rw [hlist]
        exact ih hc' hn'

theorem contribution_as_list_sum (E : List (ℕ × ℕ)) (v : ℕ) (p : ℕ → ℝ × ℝ)
    (hc : ∀ e ∈ E, e.1 < e.2) (hn : E.Nodup) :
    SwapOpt.calculate_actor_contribution v p (SwapOpt.build_adjacency E) =
      ((SwapOpt.nbrList E v).map (fun u => SwapOpt.pairDist p v u)).sum :=
  List.sum_toFinset _ (nbrList_nodup E v hc hn)

theorem nbrSum_as_edge_sum (E : List (ℕ × ℕ)) (v : ℕ) (p : ℕ → ℝ × ℝ) :
    ((SwapOpt.nbrList E v).map (fun u => SwapOpt.pairDist p v u)).sum =
      (E.map (SwapOpt.contribOf p v)).sum := by
  induction E with
  | nil => rfl
  | cons e E ih =>
    by_cases h1 : e.1 = v <;> by_cases h2 : e.2 = v <;>
      simp [SwapOpt.nbrList, List.filterMap_cons, h1, h2, SwapOpt.contribOf,
        ← ih, SwapOpt.nbrList]

theorem contribOf_pair (p : ℕ → ℝ × ℝ) (i j : ℕ) (e : ℕ × ℕ)
    (hij : i ≠ j) (he : e.1 < e.2) :
    SwapOpt.contribOf p i e + SwapOpt.contribOf p j e =
      (if SwapOpt.touches i j e then Utils.edgeDistance p e else 0) +
      (if e = (i, j) ∨ e = (j, i) then SwapOpt.pairDist p i j else 0) := by
  obtain ⟨a, b⟩ := e
  simp only at he
  have hed : Utils.edgeDistance p (a, b) = SwapOpt.pairDist p a b := rfl
  by_cases hai : a = i <;> by_cases hbi : b = i <;>
    by_cases haj : a = j <;> by_cases hbj : b = j <;>
    simp_all [SwapOpt.contribOf, SwapOpt.touches, Prod.mk.injEq] <;>
    first
      | omega
      | (unfold SwapOpt.pairDist Utils.euclidean_distance; ring_nf)

theorem shared_indicator_sum (p : ℕ → ℝ × ℝ) (i j : ℕ) :
    ∀ (E : List (ℕ × ℕ)), (∀ e ∈ E, e.1 < e.2) → E.Nodup →
      (E.map fun e =>
          if e = (i, j) ∨ e = (j, i) then SwapOpt.pairDist p i j else 0).sum =
        if (i, j) ∈ E ∨ (j, i) ∈ E then SwapOpt.pairDist p i j else 0
  | [], _, _ => by simp
  | e :: E, hc, hn => by
    obtain ⟨hne, hn'⟩ := List.nodup_cons.mp hn
    have hc' : ∀ e' ∈ E, e'.1 < e'.2 :=
      fun e' he' => hc e' (List.mem_cons_of_mem _ he')
    have hce := hc e (List.mem_cons_self _ _)
    rw [List.map_cons, List.sum_cons,
      shared_indicator_sum p i j E hc' hn']
    by_cases hsh : e = (i, j) ∨ e = (j, i)
    · have htail : ¬((i, j) ∈ E ∨ (j, i) ∈ E) := by
        rintro (hmem | hmem)
        · have h1 := hc' _ hmem
          simp only at h1
          rcases hsh with rfl | rfl
          · exact hne hmem
          · simp only at hce
            omega
        · have h1 := hc' _ hmem
          simp only at h1
          rcases hsh with rfl | rfl
          · simp only at hce
            omega
          · exact hne hmem
      have hhead : (i, j) ∈ e :: E ∨ (j, i) ∈ e :: E := by
        rcases hsh with rfl | rfl
        · exact Or.inl (List.mem_cons_self _ _)
        · exact Or.inr (List.mem_cons_self _ _)
      rw [if_pos hsh, if_neg htail, if_pos hhead]
      ring
    · have hiff : ((i, j) ∈ e :: E ∨ (j, i) ∈ e :: E) ↔
          ((i, j) ∈ E ∨ (j, i) ∈ E) := by
        simp only [List.mem_cons]
        constructor
        · rintro ((h | h) | (h | h))
          · exact absurd (Or.inl h.symm) hsh
          · exact Or.inl h
          · exact absurd (Or.inr h.symm) hsh
          · exact Or.inr h
        · rintro (h | h)
          · exact Or.inl (Or.inr h)
          · exact Or.inr (Or.inr h)
      rw [if_neg hsh]
      by_cases hcond : (i, j) ∈ E ∨ (j, i) ∈ E
      · rw [if_pos hcond, if_pos (hiff.mpr hcond)]
        ring
      · rw [if_neg hcond, if_neg (fun h => hcond (hiff.mp h))]
        ring

theorem contributions_touch_sum (E : List (ℕ × ℕ)) (r : ℕ → ℝ × ℝ)
    (i j : ℕ) (hij : i ≠ j) (hc : ∀ e ∈ E, e.1 < e.2) (hn : E.Nodup) :
    SwapOpt.calculate_actor_contribution i r (SwapOpt.build_adjacency E) +
      SwapOpt.calculate_actor_contribution j r (SwapOpt.build_adjacency E) -
      (if j ∈ SwapOpt.build_adjacency E i then SwapOpt.pairDist r i j else 0) =
      (E.map fun e =>
        if SwapOpt.touches i j e then Utils.edgeDistance r e else 0).sum := by
  rw [contribution_as_list_sum E i r hc hn, contribution_as_list_sum E j r hc hn,
    nbrSum_as_edge_sum E i r, nbrSum_as_edge_sum E j r]
  have hadd : (E.map (SwapOpt.contribOf r i)).sum +
      (E.map (SwapOpt.contribOf r j)).sum =
      (E.map fun e => SwapOpt.contribOf r i e + SwapOpt.contribOf r j e).sum :=
    (list_sum_map_add E _ _).symm
  rw [hadd,
    List.map_congr_left (fun e he => contribOf_pair r i j e hij (hc e he)),
    list_sum_map_add, shared_indicator_sum r i j E hc hn]
  have hmemiff : j ∈ SwapOpt.build_adjacency E i ↔ ((i, j) ∈ E ∨ (j, i) ∈ E) := by
    rw [SwapOpt.build_adjacency, List.mem_toFinset]
    exact mem_nbrList E i j
  by_cases hcond : (i, j) ∈ E ∨ (j, i) ∈ E
  · rw [if_pos hcond, if_pos (hmemiff.mpr hcond)]
    ring
  · rw [if_neg hcond, if_neg (fun h => hcond (hmemiff.mp h))]
    ring

theorem untouched_edge_distance (p : ℕ → ℝ × ℝ) (i j : ℕ) (e : ℕ × ℕ)
    (ht : ¬SwapOpt.touches i j e) :
    Utils.edgeDistance (SwapOpt.swapped p i j) e = Utils.edgeDistance p e := by
  unfold SwapOpt.touches at ht
  push_neg at ht
  obtain ⟨h1, h2, h3, h4⟩ := ht
  unfold Utils.edgeDistance
  rw [swapped_apply_other p i j e.1 h1 h3, swapped_apply_other p i j e.2 h2 h4]

theorem try_swap_eq_delta (E : List (ℕ × ℕ)) (p : ℕ → ℝ × ℝ) (i j : ℕ)
    (hij : i ≠ j) (hc : ∀ e ∈ E, e.1 < e.2) (hn : E.Nodup) :
    SwapOpt.try_swap i j p (SwapOpt.build_adjacency E) =
      SwapOpt.total_distance (SwapOpt.swapped p i j) E -
        SwapOpt.total_distance p E := by
  have hfold : ∀ (r : ℕ → ℝ × ℝ) (a b : ℕ),
      Utils.euclidean_distance (r a).1 (r a).2 (r b).1 (r b).2 =
        SwapOpt.pairDist r a b := fun _ _ _ => rfl
  have htot : SwapOpt.total_distance (SwapOpt.swapped p i j) E -
      SwapOpt.total_distance p E =
      (E.map fun e =>
        if SwapOpt.touches i j e
        then Utils.edgeDistance (SwapOpt.swapped p i j) e else 0).sum -
      (E.map fun e =>
        if SwapOpt.touches i j e then Utils.edgeDistance p e else 0).sum := by
    unfold SwapOpt.total_distance
    rw [← list_sum_map_sub, ← list_sum_map_sub]
    apply congrArg List.sum
    apply List.map_congr_left
    intro e he
    by_cases ht : SwapOpt.touches i j e
    · rw [if_pos ht, if_pos ht]
    · rw [if_neg ht, if_neg ht, untouched_edge_distance p i j e ht]
      ring
  unfold SwapOpt.try_swap
  dsimp only
  rw [hfold, hfold]
  rw [contributions_touch_sum E p i j hij hc hn,
    contributions_touch_sum E (SwapOpt.swapped p i j) i j hij hc hn, htot]

/-- C1.  For distinct nodes `i` and `j` (over the pipeline's canonical,
duplicate-free edge list and its derived adjacency), `try_swap` returns
exactly the total edge length of the layout with `i`'s and `j`'s positions
exchanged minus the total edge length of the current layout; the shared
`i`–`j` edge, subtracted once from both the old and the new contribution
sums, is therefore not double-counted. -/
theorem C1_try_swap_exact (edges : List (ℕ × ℕ)) (positions : ℕ → ℝ × ℝ)
    (i j : ℕ) (hij : i ≠ j) (hcanon : ∀ e ∈ edges, e.1 < e.2)
    (hnodup : edges.Nodup) :
    SwapOpt.try_swap i j positions (SwapOpt.build_adjacency edges) =
      SwapOpt.total_distance (SwapOpt.swapped positions i j) edges -
        SwapOpt.total_distance positions edges :=
  try_swap_eq_delta edges positions i j hij hcanon hnodup

/-- C1, witness at a concrete input: a single edge `(0, 1)` whose endpoints
are exactly the swapped pair. -/
theorem C1_witness :
    ((0 : ℕ) ≠ 1 ∧ (∀ e ∈ [((0 : ℕ), (1 : ℕ))], e.1 < e.2) ∧
      ([((0 : ℕ), (1 : ℕ))] : List (ℕ × ℕ)).Nodup) ∧
    SwapOpt.try_swap 0 1 (fun n => ((n : ℝ), 0))
        (SwapOpt.build_adjacency [(0, 1)]) =
      SwapOpt.total_distance (SwapOpt.swapped (fun n => ((n : ℝ), 0)) 0 1)
          [(0, 1)] -
        SwapOpt.total_distance (fun n => ((n : ℝ), 0)) [(0, 1)] :=
  ⟨⟨by decide, by decide, by decide⟩,
    C1_try_swap_exact [(0, 1)] (fun n => ((n : ℝ), 0)) 0 1 (by decide)
      (by decide) (by decide)⟩

/-! ## C2: the running total-distance accumulator -/

theorem try_swap_self (p : ℕ → ℝ × ℝ) (i : ℕ) (adj : ℕ → Finset ℕ) :
    SwapOpt.try_swap i i p adj = 0 := by
  unfold SwapOpt.try_swap
  dsimp only
  rw [swapped_self]
  ring

theorem swapStep_invariant (E : List (ℕ × ℕ))
    (hc : ∀ e ∈ E, e.1 < e.2) (hn : E.Nodup) (s : SwapOpt.LoopState)
    (pr : ℕ × ℕ)
    (hinv : s.total_distance = SwapOpt.total_distance s.positions E) :
    (SwapOpt.swapStep E s pr).total_distance =
      SwapOpt.total_distance (SwapOpt.swapStep E s pr).positions E := by
  unfold SwapOpt.swapStep
  dsimp only
  by_cases hlt :
      SwapOpt.try_swap pr.1 pr.2 s.positions (SwapOpt.build_adjacency E) <
        -0.001
  · rw [if_pos hlt]
    by_cases hij : pr.1 = pr.2
    · exfalso
      rw [hij, try_swap_self] at hlt
      norm_num at hlt
    · dsimp only
      rw [hinv, try_swap_eq_delta E s.positions pr.1 pr.2 hij hc hn]
      ring
  · rw [if_neg hlt]
    exact hinv

theorem foldl_swapStep_invariant (E : List (ℕ × ℕ))
    (hc : ∀ e ∈ E, e.1 < e.2) (hn : E.Nodup) :
    ∀ (pairs : List (ℕ × ℕ)) (s : SwapOpt.LoopState),
      s.total_distance = SwapOpt.total_distance s.positions E →
      (pairs.foldl (SwapOpt.swapStep E) s).total_distance =
        SwapOpt.total_distance
          ((pairs.foldl (SwapOpt.swapStep E) s)).positions E
  | [], _, hinv => hinv
  | pr :: pairs, s, hinv => by
    rw [List.foldl_cons]
    exact foldl_swapStep_invariant E hc hn pairs (SwapOpt.swapStep E s pr)
      (swapStep_invariant E hc hn s pr hinv)

/-- C2.  Starting from the from-scratch initial total, after any sequence
of trial iterations of the swap-optimization loop (each adding its exact
delta to the accumulator when the swap is accepted), the running
total-distance accumulator equals a from-scratch recomputation of the total
edge length at the current positions — in this exact-real model the match
is exact, hence in particular within any floating-point tolerance. -/
theorem C2_running_total_exact (edges : List (ℕ × ℕ))
    (pairs : List (ℕ × ℕ)) (initial_positions : ℕ → ℝ × ℝ)
    (initial_ordinals : ℕ → ℕ) (hcanon : ∀ e ∈ edges, e.1 < e.2)
    (hnodup : edges.Nodup) :
    (pairs.foldl (SwapOpt.swapStep edges)
        (SwapOpt.initialState edges initial_positions initial_ordinals)).total_distance =
      SwapOpt.total_distance
        (pairs.foldl (SwapOpt.swapStep edges)
          (SwapOpt.initialState edges initial_positions
            initial_ordinals)).positions edges :=
  foldl_swapStep_invariant edges hcanon hnodup pairs _ rfl

/-- C2, witness at a concrete input: one edge and two trial pairs. -/
theorem C2_witness :
    ((∀ e ∈ [((0 : ℕ), (1 : ℕ))], e.1 < e.2) ∧
      ([((0 : ℕ), (1 : ℕ))] : List (ℕ × ℕ)).Nodup) ∧
    ([((0 : ℕ), (1 : ℕ)), (1, 0)].foldl (SwapOpt.swapStep [(0, 1)])
        (SwapOpt.initialState [(0, 1)] (fun n => ((n : ℝ), 0))
          (fun n => n))).total_distance =
      SwapOpt.total_distance
        (([((0 : ℕ), (1 : ℕ)), (1, 0)].foldl (SwapOpt.swapStep [(0, 1)])
          (SwapOpt.initialState [(0, 1)] (fun n => ((n : ℝ), 0))
            (fun n => n))).positions) [(0, 1)] :=
  ⟨⟨by decide, by decide⟩,
    C2_running_total_exact [(0, 1)] [(0, 1), (1, 0)] (fun n => ((n : ℝ), 0))
      (fun n => n) (by decide) (by decide)⟩

/-! ## C5: termination and the stop reason of the swap loop -/

theorem swapStep_iteration (edges : List (ℕ × ℕ)) (s : SwapOpt.LoopState)
    (pair : ℕ × ℕ) :
    (SwapOpt.swapStep edges s pair).iteration = s.iteration + 1 := by
  unfold SwapOpt.swapStep
  dsimp only
  split <;> rfl

theorem run_loop_exit (E : List (ℕ × ℕ)) (stream : ℕ → ℕ × ℕ) :
    ∀ (n : ℕ) (s : SwapOpt.LoopState),
      SwapOpt.MAX_ITERATIONS - s.iteration ≤ n →
      s.iteration ≤ SwapOpt.MAX_ITERATIONS →
      (SwapOpt.run_loop E stream s).iteration ≤ SwapOpt.MAX_ITERATIONS ∧
      ¬((SwapOpt.run_loop E stream s).stagnation_counter <
          SwapOpt.STAGNATION_THRESHOLD ∧
        (SwapOpt.run_loop E stream s).iteration < SwapOpt.MAX_ITERATIONS)
  | 0, s, hfuel, hle => by
    rw [SwapOpt.run_loop, if_neg (by omega)]
    exact ⟨hle, by omega⟩
  | n + 1, s, hfuel, hle => by
    rw [SwapOpt.run_loop]
    by_cases hcond : s.stagnation_counter < SwapOpt.STAGNATION_THRESHOLD ∧
        s.iteration < SwapOpt.MAX_ITERATIONS
    · rw [if_pos hcond]
      have hstep := swapStep_iteration E s (stream s.iteration)
      exact run_loop_exit E stream n (SwapOpt.swapStep E s (stream s.iteration))
        (by rw [hstep]; omega) (by rw [hstep]; omega)
    · rw [if_neg hcond]
      exact ⟨hle, hcond⟩

/-- C5.  From the loop's initial state the swap-optimization loop always
terminates after at most `MAX_ITERATIONS` attempted iterations; when it
stops, either the stagnation counter has reached `STAGNATION_THRESHOLD` or
the iteration cap has been reached; and the recorded stop reason is
`"stagnation"` exactly when the stagnation counter reached the threshold,
and `"max_iterations"` otherwise. -/
theorem C5_swap_loop_stopping (edges : List (ℕ × ℕ)) (stream : ℕ → ℕ × ℕ)
    (initial_positions : ℕ → ℝ × ℝ) (initial_ordinals : ℕ → ℕ) :
    (SwapOpt.run_loop edges stream
        (SwapOpt.initialState edges initial_positions
          initial_ordinals)).iteration ≤ SwapOpt.MAX_ITERATIONS ∧
    (SwapOpt.STAGNATION_THRESHOLD ≤
        (SwapOpt.run_loop edges stream
          (SwapOpt.initialState edges initial_positions
            initial_ordinals)).stagnation_counter ∨
      SwapOpt.MAX_ITERATIONS ≤
        (SwapOpt.run_loop edges stream
          (SwapOpt.initialState edges initial_positions
            initial_ordinals)).iteration) ∧
    (SwapOpt.stopped_reason
        (SwapOpt.run_loop edges stream
          (SwapOpt.initialState edges initial_positions initial_ordinals)) =
        "stagnation" ↔
      SwapOpt.STAGNATION_THRESHOLD ≤
        (SwapOpt.run_loop edges stream
          (SwapOpt.initialState edges initial_positions
            initial_ordinals)).stagnation_counter) ∧
    (SwapOpt.stopped_reason
        (SwapOpt.run_loop edges stream
          (SwapOpt.initialState edges initial_positions initial_ordinals)) =
        "max_iterations" ↔
      (SwapOpt.run_loop edges stream
          (SwapOpt.initialState edges initial_positions
            initial_ordinals)).stagnation_counter <
        SwapOpt.STAGNATION_THRESHOLD) := by
  obtain ⟨h1, h2⟩ := run_loop_exit edges stream SwapOpt.MAX_ITERATIONS
    (SwapOpt.initialState edges initial_positions initial_ordinals)
    (by rfl) (by unfold SwapOpt.initialState; dsimp only; omega)
  refine ⟨h1, by omega, ?_, ?_⟩
  · unfold SwapOpt.stopped_reason
    by_cases hth : SwapOpt.STAGNATION_THRESHOLD ≤
        (SwapOpt.run_loop edges stream
          (SwapOpt.initialState edges initial_positions
            initial_ordinals)).stagnation_counter
    · rw [if_pos hth]
      simp [hth]
    · rw [if_neg hth]
      constructor
      · intro hcontra
        exact absurd hcontra (by decide)
      · intro hcontra
        exact absurd hcontra hth
  · unfold SwapOpt.stopped_reason
    by_cases hth : SwapOpt.STAGNATION_THRESHOLD ≤
        (SwapOpt.run_loop edges stream
          (SwapOpt.initialState edges initial_positions
            initial_ordinals)).stagnation_counter
    · rw [if_pos hth]
      constructor
      · intro hcontra
        exact absurd hcontra (by decide)
      · intro hcontra
        omega
    · rw [if_neg hth]
      simp
      omega

end Sdokb
